import Mathlib

/-!
SillyTavern-Co-op: session coordination

A shallow embedding of `src/script.js` (the orchestration module) and of the
Pinia store of `src/ui.js`, followed by the properties of the session state
machine, the membership registry and the host-side input aggregation.

Conventions of the embedding.

* Module-level variables of `script.js` (`settings`, `ws`, `userId`, `isHost`,
  `pendingInputs`) and `window.coopStore` are the fields of `State`.
* A JavaScript `Map` with string keys is an association list in insertion
  order; `Map.prototype.set` on a present key overwrites the value in place.
* Calls to collaborators that live outside the two files (`ws.send`,
  `sendSystemMessage`, `addOneMessage`) are recorded, in call order, in a list
  of `Effect`s returned next to the new state.
* `setTimeout(sendCombinedInputsToAI, 5000)` adds one scheduled callback to
  `State.timers`; the callbacks are indistinguishable, so a counter holds them.
  There is no `clearTimeout` in the source.
* `console.log` / `console.error` are not modelled, nor is
  `onAfterMessageGenerate`, which the source registers under no event.
* The proxy `coopUi` skips an action while `window.coopStore` is unset.  The
  listeners are attached only once the store exists (`script.js` line 201), so
  properties of the status and of the registry are stated for states with
  `coopStore = some st`.
-/

namespace Coop

/-! ## The store of `ui.js` -/

/-- The five values that `status` takes (`ui.js` line 18). -/
inductive Status where
  | disconnected
  | connecting
  | connected
  | waiting
  | generating
  deriving DecidableEq, Repr

/-- A roster entry `{id, name}` as carried by `welcome` and `user_joined`. -/
structure User where
  id : String
  name : String
  deriving DecidableEq, Repr

/-- State of the Pinia store `coop` (`ui.js` lines 17-24).  A `chatLog` entry
is kept as its text; its `id` (`Date.now() + Math.random()`, a rendering key)
is not modelled. -/
structure CoopStore where
  status : Status
  isPanelVisible : Bool
  users : List User
  chatLog : List String
  isHost : Bool
  lastError : Option String
  deriving DecidableEq, Repr

namespace CoopStore

/-- Initial store state (`ui.js` lines 17-24). -/
def initial : CoopStore :=
  { status := Status.disconnected
    isPanelVisible := false
    users := []
    chatLog := []
    isHost := false
    lastError := none }

/-- Action `setStatus` (`ui.js` lines 26-28). -/
def setStatus (st : CoopStore) (newStatus : Status) : CoopStore :=
  { st with status := newStatus }

/-- Action `setIsHost` (`ui.js` lines 29-31). -/
def setIsHost (st : CoopStore) (isHost : Bool) : CoopStore :=
  { st with isHost := isHost }

/-- Action `setUsers` (`ui.js` lines 41-43). -/
def setUsers (st : CoopStore) (userList : List User) : CoopStore :=
  { st with users := userList }

/-- Action `addUser` (`ui.js` lines 44-48): push unless an entry with the same
id is found. -/
def addUser (st : CoopStore) (user : User) : CoopStore :=
  if (st.users.find? (fun u => u.id == user.id)).isSome then st
  else { st with users := st.users ++ [user] }

/-- Action `log` (`ui.js` lines 56-61): `unshift`, then `pop` beyond 100. -/
def log (st : CoopStore) (message : String) : CoopStore :=
  let chatLog := message :: st.chatLog
  { st with chatLog := if chatLog.length > 100 then chatLog.dropLast else chatLog }

/-- Action `removeUser` (`ui.js` lines 49-55). -/
def removeUser (st : CoopStore) (userId : String) : CoopStore :=
  match st.users.find? (fun u => u.id == userId) with
  | some user =>
    let st1 := st.log ("System: " ++ user.name ++ " has left.")
    { st1 with users := st1.users.filter (fun u => u.id != userId) }
  | none => st

end CoopStore

/-! ## Module state of `script.js` -/

/-- The `settings` object after `loadSettings` (`script.js` lines 27-32). -/
structure Settings where
  enabled : Bool
  server_url : String
  user_name : String
  deriving DecidableEq, Repr

/-- Values of `WebSocket.readyState`. -/
inductive ReadyState where
  | CONNECTING
  | OPEN
  | CLOSING
  | CLOSED
  deriving DecidableEq, Repr

/-- Module state: `script.js` lines 5-9, `window.coopStore`, and the callbacks
scheduled by `setTimeout` that have not fired yet. -/
structure State where
  settings : Settings
  ws : Option ReadyState
  userId : String
  isHost : Bool
  pendingInputs : List (String × String)
  coopStore : Option CoopStore
  timers : Nat
  deriving DecidableEq, Repr

/-- Envelopes this process sends (`script.js` lines 50-53, 161-164, 217-220). -/
inductive Outbound where
  | join (id name : String)
  | user_input (id name text : String)
  deriving DecidableEq, Repr

/-- Calls to collaborators outside this repository. -/
inductive Effect where
  | wsSend (envelope : Outbound)
  | sendSystemMessage (message role : String) (is_user : Bool)
  | addOneMessage (role message : String) (send_date : Nat) (is_system : Bool)
  deriving DecidableEq, Repr

/-- Inbound envelopes, by `message.type` (`script.js` lines 77-121); `other`
is any type the `switch` has no case for. -/
inductive Message where
  | welcome (id : String) (isHost : Bool) (users : List User)
  | user_joined (data : User)
  | user_left (id name : String)
  | host_input_request
  | client_input (id name text : String)
  | broadcast_message (text : String)
  | other (type : String)
  deriving DecidableEq, Repr

/-! ### `Map` operations used on `pendingInputs` -/

/-- Method `Map.prototype.set`: overwrite in place when the key is present,
append otherwise. -/
def mapSet : List (String × String) → String → String → List (String × String)
  | [], k, v => [(k, v)]
  | (k', v') :: rest, k, v =>
    if k' = k then (k', v) :: rest else (k', v') :: mapSet rest k v

/-- Values in insertion order, `Array.from(map.values())`. -/
def mapValues (m : List (String × String)) : List String :=
  m.map Prod.snd

/-- Keys in insertion order, `Array.from(map.keys())`. -/
def mapKeys (m : List (String × String)) : List String :=
  m.map Prod.fst

/-- Method `Map.prototype.get`. -/
def mapGet (m : List (String × String)) (k : String) : Option String :=
  (m.find? (fun e => e.1 == k)).map Prod.snd

/-! ### The `coopUi` proxy -/

/-- The proxy `coopUi` (`script.js` lines 12-21): the action runs on
`window.coopStore` when the store exists and is skipped otherwise. -/
def coopUi (s : State) (action : CoopStore → CoopStore) : State :=
  match s.coopStore with
  | some store => { s with coopStore := some (action store) }
  | none => s

/-- Function `loadSettings` (`script.js` lines 24-34). -/
def loadSettings : Settings :=
  { enabled := true, server_url := "ws://localhost:8080", user_name := "User" }

/-- State once both scripts have loaded: `script.js` lines 5-9 with the loaded
settings, and the store created by `ui.js` line 164.  The initial `userId` is
random (`script.js` line 7), hence a parameter. -/
def init (userId : String) : State :=
  { settings := loadSettings
    ws := none
    userId := userId
    isHost := false
    pendingInputs := []
    coopStore := some CoopStore.initial
    timers := 0 }

/-! ### Transport callbacks (`script.js` lines 37-72) -/

/-- Function `connect` (`script.js` lines 37-47); the callbacks it installs
are `wsOnOpen`, `handleMessage`, `wsOnClose` and `wsOnError`. -/
def connect (s : State) : State :=
  if s.ws = some ReadyState.OPEN then s
  else if s.settings.server_url = "" then
    coopUi (coopUi s (fun st => st.setStatus Status.disconnected))
      (fun st => st.log "Error: Server URL is not configured.")
  else
    { coopUi s (fun st => st.setStatus Status.connecting) with
      ws := some ReadyState.CONNECTING }

/-- Callback `ws.onopen` (`script.js` lines 48-54). -/
def wsOnOpen (s : State) : State × List Effect :=
  ({ coopUi s (fun st => st.setStatus Status.connected) with ws := some ReadyState.OPEN },
   [Effect.wsSend (Outbound.join s.userId s.settings.user_name)])

/-- Callback `ws.onclose` (`script.js` lines 57-62). -/
def wsOnClose (s : State) : State :=
  let s1 := { s with ws := none, isHost := false }
  let s2 := coopUi s1 (fun st => st.setStatus Status.disconnected)
  coopUi s2 (fun st => st.log "Connection to server closed.")

/-- Callback `ws.onerror` (`script.js` lines 63-67). -/
def wsOnError (s : State) : State :=
  let s1 := coopUi s (fun st => st.setStatus Status.disconnected)
  coopUi s1 (fun st => st.log "Error: Could not connect to server.")

/-- Function `disconnect` (`script.js` lines 70-72): `ws.close()` starts the
closing handshake unless the socket is closed already; `ws.onclose` arrives
later as its own event. -/
def disconnect (s : State) : State :=
  match s.ws with
  | some ReadyState.CLOSED => s
  | some _ => { s with ws := some ReadyState.CLOSING }
  | none => s

/-! ### Message handling (`script.js` lines 75-122) -/

/-- Function `handleMessage` (`script.js` lines 75-122).  `now` is the value
`Date.now()` returns during the call. -/
def handleMessage (s : State) (message : Message) (now : Nat) : State × List Effect :=
  match message with
  | Message.welcome id isHost users =>
    let s1 := { s with userId := id, isHost := isHost }
    let s2 := coopUi s1 (fun st => st.setIsHost isHost)
    let s3 := coopUi s2 (fun st =>
      st.log ("Joined as " ++ (if isHost then "Host" else "Client") ++ "."))
    (users.foldl (fun acc u => coopUi acc (fun st => st.addUser u)) s3, [])
  | Message.user_joined data =>
    let s1 := coopUi s (fun st => st.addUser data)
    (coopUi s1 (fun st => st.log (data.name ++ " has joined.")), [])
  | Message.user_left id name =>
    let s1 := coopUi s (fun st => st.removeUser id)
    (coopUi s1 (fun st => st.log (name ++ " has left.")), [])
  | Message.host_input_request =>
    (coopUi s (fun st => st.setStatus Status.waiting), [])
  | Message.client_input id name text =>
    if s.isHost then
      let s1 := { s with pendingInputs := mapSet s.pendingInputs id text }
      (coopUi s1 (fun st => st.log ("Received input from " ++ name ++ ".")), [])
    else (s, [])
  | Message.broadcast_message text =>
    let effects :=
      if !s.isHost then [Effect.addOneMessage "assistant" text now false] else []
    (coopUi s (fun st => st.setStatus Status.connected), effects)
  | Message.other _ => (s, [])

/-! ### Host-specific actions (`script.js` lines 125-172) -/

/-- Function `sendCombinedInputsToAI` (`script.js` lines 125-141). -/
def sendCombinedInputsToAI (s : State) : State × List Effect :=
  if !s.isHost || s.pendingInputs.length == 0 then (s, [])
  else
    let combinedMessage := String.intercalate "\n\n" (mapValues s.pendingInputs)
    let s1 := { s with pendingInputs := [] }
    let s2 := coopUi s1 (fun st => st.setStatus Status.generating)
    (s2, [Effect.sendSystemMessage combinedMessage "user" true])

/-- The `data` object of the `before_send_user_message` event. -/
structure SendData where
  message : String
  abort : Bool
  deriving DecidableEq, Repr

/-- Function `onBeforeMessageSend` (`script.js` lines 144-172): the new state,
the collaborator calls, the `data` object as left behind, and the value the
function resolves to. -/
def onBeforeMessageSend (s : State) (data : SendData) :
    State × List Effect × SendData × Bool :=
  if !s.settings.enabled || s.ws.isNone || s.ws != some ReadyState.OPEN then
    (s, [], data, true)
  else
    let messageText := data.message
    let done : SendData := { message := "", abort := true }
    if s.isHost then
      let s1 := { s with pendingInputs := mapSet s.pendingInputs s.userId messageText }
      let s2 := coopUi s1 (fun st => st.log "Your input is ready. Waiting for others...")
      ({ s2 with timers := s2.timers + 1 }, [], done, false)
    else
      let s1 := coopUi s (fun st => st.log "Your input has been sent to the host.")
      (s1, [Effect.wsSend (Outbound.user_input s.userId s.settings.user_name messageText)],
       done, false)

/-- Listener of `coop-submit-input` (`script.js` lines 215-223). -/
def onSubmitInput (s : State) (text : String) : State × List Effect :=
  if !s.isHost && s.ws.isSome then
    (coopUi s (fun st => st.log "System: Your input was sent to the host."),
     [Effect.wsSend (Outbound.user_input s.userId s.settings.user_name text)])
  else (s, [])

/-- A scheduled `setTimeout` callback runs (`script.js` line 158): it leaves
the set of scheduled callbacks and calls `sendCombinedInputsToAI`.  With no
callback scheduled there is nothing to run. -/
def timerFire (s : State) : State × List Effect :=
  if s.timers = 0 then (s, [])
  else sendCombinedInputsToAI { s with timers := s.timers - 1 }

/-! ### The event loop -/

/-- The discrete events the module reacts to, one at a time (`script.js`
lines 48-67 and 204-223). -/
inductive Event where
  | coopConnect
  | coopDisconnect
  | onopen
  | onmessage (message : Message) (now : Nat)
  | onclose
  | onerror
  | sendToAI
  | timer
  | beforeSend (data : SendData)
  | submitInput (text : String)
  deriving DecidableEq, Repr

/-- One turn of the event loop. -/
def step (s : State) : Event → State × List Effect
  | Event.coopConnect => (connect s, [])
  | Event.coopDisconnect => (disconnect s, [])
  | Event.onopen => wsOnOpen s
  | Event.onmessage message now => handleMessage s message now
  | Event.onclose => (wsOnClose s, [])
  | Event.onerror => (wsOnError s, [])
  | Event.sendToAI => sendCombinedInputsToAI s
  | Event.timer => timerFire s
  | Event.beforeSend data =>
    let r := onBeforeMessageSend s data
    (r.1, r.2.1)
  | Event.submitInput text => onSubmitInput s text

/-- State after a sequence of events. -/
def run (s : State) (events : List Event) : State :=
  events.foldl (fun acc e => (step acc e).1) s

/-- Collaborator calls made during a sequence of events, in call order. -/
def trace : State → List Event → List Effect
  | _, [] => []
  | s, e :: events => (step s e).2 ++ trace (step s e).1 events

/-- Ids listed in the Membership Registry (`store.users`). -/
def registryIds (s : State) : List String :=
  match s.coopStore with
  | some store => store.users.map User.id
  | none => []

/-! ### Submissions to the Pending Input Set -/

/-- The two ways an input reaches `pendingInputs`: the host's own message
through `onBeforeMessageSend` (`script.js` line 154) and a client's
`client_input` envelope through `handleMessage` (`script.js` line 102). -/
inductive Submission where
  | own (data : SendData)
  | client (id name text : String) (now : Nat)
  deriving DecidableEq, Repr

/-- The event that carries a submission. -/
def Submission.event : Submission → Event
  | Submission.own data => Event.beforeSend data
  | Submission.client id name text now =>
    Event.onmessage (Message.client_input id name text) now

/-- The key a submission is stored under; the host's own is `userId`. -/
def Submission.id (userId : String) : Submission → String
  | Submission.own _ => userId
  | Submission.client id _ _ _ => id

/-- The submitted text. -/
def Submission.text : Submission → String
  | Submission.own data => data.message
  | Submission.client _ _ text _ => text

/-! ### A concrete session -/

/-- A host that has connected and been welcomed with a roster of three. -/
def hostSession : State :=
  run (init "user_k3x9q2a")
    [Event.coopConnect, Event.onopen,
     Event.onmessage (Message.welcome "H" true [⟨"H", "Hana"⟩, ⟨"A", "Ann"⟩, ⟨"B", "Bob"⟩]) 0]

/-! ### Roster events -/

/-- Whether an event is a `user_joined` or `user_left` envelope. -/
def isRosterEvent : Event → Bool
  | Event.onmessage (Message.user_joined _) _ => true
  | Event.onmessage (Message.user_left _ _) _ => true
  | _ => false

/-- No `user_left` for `id` occurs in `events`. -/
def NoLeaveIn (id : String) (events : List Event) : Prop :=
  ∀ name now, Event.onmessage (Message.user_left id name) now ∉ events

/-- Some `user_joined` for `id` occurs in `events` and no `user_left` for `id`
occurs later in the sequence. -/
def JoinedAndStayed (id : String) (events : List Event) : Prop :=
  ∃ pre user now post,
    events = pre ++ Event.onmessage (Message.user_joined user) now :: post ∧
    user.id = id ∧ NoLeaveIn id post

/-- The session of `hostSession` after its link closed and a new one opened. -/
def reconnectedSession : State :=
  run hostSession [Event.onclose, Event.coopConnect, Event.onopen]

/-- The session of `hostSession` after a `host_input_request`: status `waiting`. -/
def waitingSession : State :=
  run hostSession [Event.onmessage Message.host_input_request 3]

/-- The session of `hostSession` after A's input was combined: status
`generating`. -/
def generatingSession : State :=
  run hostSession
    [Event.onmessage (Message.client_input "A" "Ann" "hello") 4, Event.sendToAI]

/-! ### The subset invariant and the events that keep it -/

/-- Invariant (c) of the data model: every key of the Pending Input Set is an
id listed in the Membership Registry. -/
def PendingWithinRegistry (s : State) : Prop :=
  ∀ k ∈ mapKeys s.pendingInputs, k ∈ registryIds s

/-- An event that cannot take a key of the Pending Input Set outside the
registry: a submission that will be stored comes from a registered id, and a
`user_left` names no id with a pending entry. -/
def Admissible (s : State) : Event → Prop
  | Event.onmessage (Message.client_input id _ _) _ =>
    s.isHost = true → id ∈ registryIds s
  | Event.onmessage (Message.user_left id _) _ => id ∉ mapKeys s.pendingInputs
  | Event.beforeSend _ =>
    s.isHost = true → s.settings.enabled = true → s.ws = some ReadyState.OPEN →
      s.userId ∈ registryIds s
  | _ => True

/-- Every event of the sequence is admissible in the state it arrives in. -/
def AdmissibleRun : State → List Event → Prop
  | _, [] => True
  | s, e :: events => Admissible s e ∧ AdmissibleRun (step s e).1 events

/-! # Properties -/

/-! ## Frame lemmas for the proxy -/

@[simp]
theorem coopUi_pendingInputs (s : State) (f : CoopStore → CoopStore) :
    (coopUi s f).pendingInputs = s.pendingInputs := by
  unfold coopUi; split <;> rfl

@[simp]
theorem coopUi_isHost (s : State) (f : CoopStore → CoopStore) :
    (coopUi s f).isHost = s.isHost := by
  unfold coopUi; split <;> rfl

@[simp]
theorem coopUi_userId (s : State) (f : CoopStore → CoopStore) :
    (coopUi s f).userId = s.userId := by
  unfold coopUi; split <;> rfl

@[simp]
theorem coopUi_ws (s : State) (f : CoopStore → CoopStore) :
    (coopUi s f).ws = s.ws := by
  unfold coopUi; split <;> rfl

@[simp]
theorem coopUi_settings (s : State) (f : CoopStore → CoopStore) :
    (coopUi s f).settings = s.settings := by
  unfold coopUi; split <;> rfl

@[simp]
theorem coopUi_timers (s : State) (f : CoopStore → CoopStore) :
    (coopUi s f).timers = s.timers := by
  unfold coopUi; split <;> rfl

@[simp]
theorem coopUi_coopStore (s : State) (f : CoopStore → CoopStore) :
    (coopUi s f).coopStore = s.coopStore.map f := by
  unfold coopUi; split <;> simp_all

/-! ## The pending map -/

theorem mapSet_of_not_mem (m : List (String × String)) (k v : String)
    (h : k ∉ mapKeys m) : mapSet m k v = m ++ [(k, v)] := by
  induction m with
  | nil => rfl
  | cons e rest ih =>
    obtain ⟨k', v'⟩ := e
    simp only [mapKeys, List.map_cons, List.mem_cons, not_or] at h
    have hne : ¬ k' = k := fun h' => h.1 h'.symm
    simp [mapSet, hne, ih h.2]

theorem mapKeys_mapSet_of_mem (m : List (String × String)) (k v : String)
    (h : k ∈ mapKeys m) : mapKeys (mapSet m k v) = mapKeys m := by
  induction m with
  | nil => simp [mapKeys] at h
  | cons e rest ih =>
    obtain ⟨k', v'⟩ := e
    by_cases hk : k' = k
    · simp [mapSet, hk, mapKeys]
    · have : k ∈ mapKeys rest := by
        simp only [mapKeys, List.map_cons, List.mem_cons] at h
        rcases h with h | h
        · exact absurd h.symm hk
        · exact h
      have := ih this
      simp only [mapKeys] at this
      simp [mapSet, hk, mapKeys, this]

/-- Pending map after a run of submissions, as a fold of `Map.prototype.set`. -/
theorem run_submissions (subs : List Submission) :
    ∀ s : State, s.isHost = true → s.settings.enabled = true →
      s.ws = some ReadyState.OPEN →
      (run s (subs.map Submission.event)).isHost = true ∧
      (run s (subs.map Submission.event)).settings = s.settings ∧
      (run s (subs.map Submission.event)).ws = s.ws ∧
      (run s (subs.map Submission.event)).userId = s.userId ∧
      (run s (subs.map Submission.event)).pendingInputs =
        subs.foldl (fun m sub => mapSet m (sub.id s.userId) sub.text) s.pendingInputs := by
  induction subs with
  | nil => intro s hh _ _; simp [run, hh]
  | cons sub rest ih =>
    intro s hh he hw
    have key : (step s sub.event).1.isHost = true ∧
        (step s sub.event).1.settings = s.settings ∧
        (step s sub.event).1.ws = s.ws ∧
        (step s sub.event).1.userId = s.userId ∧
        (step s sub.event).1.pendingInputs = mapSet s.pendingInputs (sub.id s.userId) sub.text := by
      cases sub with
      | own data =>
        simp [Submission.event, step, onBeforeMessageSend, he, hw, hh, Submission.id,
          Submission.text]
      | client id name text now =>
        simp [Submission.event, step, handleMessage, hh, Submission.id, Submission.text]
    obtain ⟨k1, k2, k3, k4, k5⟩ := key
    have := ih (step s sub.event).1 k1 (by rw [k2]; exact he) (by rw [k3]; exact hw)
    simp only [run, List.map_cons, List.foldl_cons] at this ⊢
    rw [k2, k3, k4, k5] at this
    exact this

/-- Submissions under fresh, pairwise distinct keys are appended in order. -/
theorem foldl_mapSet_distinct (userId : String) (subs : List Submission) :
    ∀ m : List (String × String),
      (mapKeys m ++ subs.map (Submission.id userId)).Nodup →
      subs.foldl (fun m sub => mapSet m (sub.id userId) sub.text) m =
        m ++ subs.map (fun sub => (sub.id userId, sub.text)) := by
  induction subs with
  | nil => intro m _; simp
  | cons sub rest ih =>
    intro m h
    have hnot : sub.id userId ∉ mapKeys m := by
      intro hmem
      rw [List.nodup_append] at h
      exact h.2.2 hmem (by simp)
    simp only [List.foldl_cons, List.map_cons]
    rw [mapSet_of_not_mem m _ _ hnot, ih]
    · simp
    · have : mapKeys (m ++ [(sub.id userId, sub.text)]) ++ rest.map (Submission.id userId)
          = mapKeys m ++ (sub :: rest).map (Submission.id userId) := by
        simp [mapKeys]
      rw [this]; exact h

/-- C2: in every state whose Pending Input Set is empty, `sendCombinedInputsToAI`
(called directly or through the `coop-send-to-ai` listener) hands nothing to
the generation collaborator and returns the state it was given, so status,
Pending Input Set, host flag and Membership Registry are all unchanged. -/
theorem combine_empty_noop (s : State) (h : s.pendingInputs = []) :
    sendCombinedInputsToAI s = (s, []) ∧ step s Event.sendToAI = (s, []) := by
  simp [step, sendCombinedInputsToAI, h]

/-- C2 on `hostSession`, a host whose Pending Input Set is empty: the call gets
past the role check and returns at the emptiness check, state unchanged and
nothing sent. -/
theorem combine_empty_noop_witness :
    hostSession.isHost = true ∧
    hostSession.pendingInputs = [] ∧
    (sendCombinedInputsToAI hostSession = (hostSession, []) ∧
      step hostSession Event.sendToAI = (hostSession, [])) :=
  ⟨by decide, by decide, combine_empty_noop hostSession (by decide)⟩

/-- C1: on a host with the extension active and an empty Pending Input Set,
after any sequence of submissions with pairwise distinct ids (the host's own
through `onBeforeMessageSend`, clients' through `client_input`) the set holds
the submissions in submission order; one `sendCombinedInputsToAI` then leaves
the set empty and, when something was submitted, hands the generation
collaborator exactly one message: the texts joined with a blank line, in
submission order. -/
theorem submit_then_combine (s : State) (subs : List Submission)
    (hhost : s.isHost = true) (hen : s.settings.enabled = true)
    (hws : s.ws = some ReadyState.OPEN) (hempty : s.pendingInputs = [])
    (hdistinct : (subs.map (Submission.id s.userId)).Nodup) :
    (run s (subs.map Submission.event)).pendingInputs =
        subs.map (fun sub => (sub.id s.userId, sub.text)) ∧
    (step (run s (subs.map Submission.event)) Event.sendToAI).1.pendingInputs = [] ∧
    (subs ≠ [] →
      (step (run s (subs.map Submission.event)) Event.sendToAI).2 =
        [Effect.sendSystemMessage (String.intercalate "\n\n" (subs.map Submission.text))
          "user" true]) := by
  obtain ⟨r1, _, _, _, r5⟩ := run_submissions subs s hhost hen hws
  rw [hempty, foldl_mapSet_distinct s.userId subs [] (by simpa [mapKeys] using hdistinct)] at r5
  simp only [List.nil_append] at r5
  refine ⟨r5, ?_, ?_⟩
  · simp only [step, sendCombinedInputsToAI]
    split
    · rename_i hc
      simp only [r1, Bool.not_true, Bool.false_or, beq_iff_eq] at hc
      exact List.length_eq_zero.mp hc
    · simp
  · intro hne
    have hlen : ¬ (subs.length = 0) := by
      intro h0; exact hne (List.length_eq_zero.mp h0)
    simp [step, sendCombinedInputsToAI, r1, r5, hlen, mapValues, Function.comp_def]

/-- Scenario A on `hostSession`: "hello" from A, then "world" from B. -/
theorem submit_then_combine_witness :
    (step (run hostSession
        ([Submission.client "A" "Ann" "hello" 1, Submission.client "B" "Bob" "world" 2].map
          Submission.event)) Event.sendToAI).1.pendingInputs = [] ∧
    (step (run hostSession
        ([Submission.client "A" "Ann" "hello" 1, Submission.client "B" "Bob" "world" 2].map
          Submission.event)) Event.sendToAI).2 =
      [Effect.sendSystemMessage "hello\n\nworld" "user" true] :=
  have h := submit_then_combine hostSession
    [Submission.client "A" "Ann" "hello" 1, Submission.client "B" "Bob" "world" 2]
    (by decide) (by decide) (by decide) (by decide) (by decide)
  ⟨h.2.1, h.2.2 (by decide)⟩

/-! ## Overwriting a pending entry -/

theorem mapKeys_mapSet_nodup (m : List (String × String)) (k v : String)
    (h : (mapKeys m).Nodup) : (mapKeys (mapSet m k v)).Nodup := by
  by_cases hk : k ∈ mapKeys m
  · rw [mapKeys_mapSet_of_mem m k v hk]; exact h
  · rw [mapSet_of_not_mem m k v hk]
    simp only [mapKeys, List.map_append, List.map_cons, List.map_nil]
    rw [List.nodup_append]
    refine ⟨h, by simp, ?_⟩
    intro x hx hx'
    simp only [List.mem_singleton] at hx'
    exact hk (hx' ▸ hx)

theorem mem_mapKeys_mapSet (m : List (String × String)) (k v j : String) :
    j ∈ mapKeys (mapSet m k v) ↔ j = k ∨ j ∈ mapKeys m := by
  by_cases hk : k ∈ mapKeys m
  · rw [mapKeys_mapSet_of_mem m k v hk]
    constructor
    · exact Or.inr
    · rintro (rfl | h)
      · exact hk
      · exact h
  · rw [mapSet_of_not_mem m k v hk]
    simp [mapKeys, or_comm]

theorem mapGet_mapSet_self (m : List (String × String)) (k v : String) :
    mapGet (mapSet m k v) k = some v := by
  induction m with
  | nil => simp [mapSet, mapGet]
  | cons e rest ih =>
    obtain ⟨k', v'⟩ := e
    by_cases hk : k' = k
    · simp [mapSet, hk, mapGet]
    · simp only [mapGet] at ih
      simp [mapSet, hk, mapGet, List.find?_cons, ih]

theorem mapGet_mapSet_ne (m : List (String × String)) (k v j : String) (h : j ≠ k) :
    mapGet (mapSet m k v) j = mapGet m j := by
  induction m with
  | nil => simp [mapSet, mapGet, List.find?_cons, Ne.symm h]
  | cons e rest ih =>
    obtain ⟨k', v'⟩ := e
    by_cases hk : k' = k
    · subst hk
      simp [mapSet, mapGet, List.find?_cons, Ne.symm h]
    · simp only [mapGet] at ih
      by_cases hj : k' = j
      · subst hj
        simp [mapSet, hk, mapGet, List.find?_cons]
      · simp [mapSet, hk, mapGet, List.find?_cons, hj, ih]

theorem mapValues_mapSet_of_mem (m : List (String × String)) (k v : String)
    (h : k ∈ mapKeys m) :
    mapValues (mapSet m k v) = (mapValues m).set ((mapKeys m).indexOf k) v := by
  induction m with
  | nil => simp [mapKeys] at h
  | cons e rest ih =>
    obtain ⟨k', v'⟩ := e
    by_cases hk : k' = k
    · simp [mapSet, hk, mapValues, mapKeys]
    · have hmem : k ∈ mapKeys rest := by
        simp only [mapKeys, List.map_cons, List.mem_cons] at h
        rcases h with h | h
        · exact absurd h.symm hk
        · exact h
      have := ih hmem
      simp only [mapValues, mapKeys] at this
      simp [mapSet, hk, mapValues, mapKeys, List.indexOf_cons_ne _ hk, this]

theorem indexOf_mapKeys_mapSet (m : List (String × String)) (k v j : String)
    (h : j ∈ mapKeys m) :
    (mapKeys (mapSet m k v)).indexOf j = (mapKeys m).indexOf j := by
  by_cases hk : k ∈ mapKeys m
  · rw [mapKeys_mapSet_of_mem m k v hk]
  · rw [mapSet_of_not_mem m k v hk]
    simp only [mapKeys, List.map_append]
    exact List.indexOf_append_of_mem h

/-- Keys already present keep their position, and keys stay distinct, through
any further submissions. -/
theorem foldl_mapSet_keys (userId j : String) (subs : List Submission) :
    ∀ m : List (String × String), j ∈ mapKeys m → (mapKeys m).Nodup →
      j ∈ mapKeys (subs.foldl (fun m sub => mapSet m (sub.id userId) sub.text) m) ∧
      (mapKeys (subs.foldl (fun m sub => mapSet m (sub.id userId) sub.text) m)).Nodup ∧
      (mapKeys (subs.foldl (fun m sub => mapSet m (sub.id userId) sub.text) m)).indexOf j =
        (mapKeys m).indexOf j := by
  induction subs with
  | nil => intro m hj hn; exact ⟨hj, hn, rfl⟩
  | cons sub rest ih =>
    intro m hj hn
    have hj' : j ∈ mapKeys (mapSet m (sub.id userId) sub.text) :=
      (mem_mapKeys_mapSet m _ _ j).mpr (Or.inr hj)
    obtain ⟨a, b, c⟩ := ih (mapSet m (sub.id userId) sub.text) hj'
      (mapKeys_mapSet_nodup m _ _ hn)
    refine ⟨a, b, ?_⟩
    simp only [List.foldl_cons]
    rw [c, indexOf_mapKeys_mapSet m _ _ j hj]

/-- C10: on a host with the extension active, when the same id submits twice
before a combine, with any submissions in between, the Pending Input
Set afterwards holds exactly one entry for that id, carrying the later text;
every other id's entry is as it was before the second submission; the id keeps
the position its first submission took (the end of the set, if the id was new
then); and the combined string is the one from before the second submission
with the text at that position replaced by the later text. -/
theorem resubmit_last_write_wins (s : State) (first second : Submission)
    (others : List Submission)
    (hhost : s.isHost = true) (hen : s.settings.enabled = true)
    (hws : s.ws = some ReadyState.OPEN) (hwf : (mapKeys s.pendingInputs).Nodup)
    (hsame : second.id s.userId = first.id s.userId) :
    (mapKeys (run (run (run s [first.event]) (others.map Submission.event))
        [second.event]).pendingInputs).count (first.id s.userId) = 1 ∧
    mapGet (run (run (run s [first.event]) (others.map Submission.event))
        [second.event]).pendingInputs (first.id s.userId) = some second.text ∧
    (∀ j, j ≠ first.id s.userId →
      mapGet (run (run (run s [first.event]) (others.map Submission.event))
          [second.event]).pendingInputs j =
        mapGet (run (run s [first.event]) (others.map Submission.event)).pendingInputs j) ∧
    (mapKeys (run (run (run s [first.event]) (others.map Submission.event))
        [second.event]).pendingInputs).indexOf (first.id s.userId) =
      (mapKeys (run s [first.event]).pendingInputs).indexOf (first.id s.userId) ∧
    (first.id s.userId ∉ mapKeys s.pendingInputs →
      (mapKeys (run s [first.event]).pendingInputs).indexOf (first.id s.userId) =
        s.pendingInputs.length) ∧
    (step (run (run (run s [first.event]) (others.map Submission.event)) [second.event])
        Event.sendToAI).2 =
      [Effect.sendSystemMessage (String.intercalate "\n\n"
        ((mapValues (run (run s [first.event]) (others.map Submission.event)).pendingInputs).set
          ((mapKeys (run s [first.event]).pendingInputs).indexOf (first.id s.userId))
          second.text)) "user" true] := by
  -- after the first submission
  obtain ⟨a1, a2, a3, a4, a5⟩ := run_submissions [first] s hhost hen hws
  simp only [List.map_cons, List.map_nil, List.foldl_cons, List.foldl_nil] at a1 a2 a3 a4 a5
  have hmem1 : first.id s.userId ∈ mapKeys (run s [first.event]).pendingInputs := by
    rw [a5]; exact (mem_mapKeys_mapSet _ _ _ _).mpr (Or.inl rfl)
  have hnd1 : (mapKeys (run s [first.event]).pendingInputs).Nodup := by
    rw [a5]; exact mapKeys_mapSet_nodup _ _ _ hwf
  -- after the submissions in between
  obtain ⟨b1, b2, b3, b4, b5⟩ := run_submissions others (run s [first.event]) a1
    (by rw [a2]; exact hen) (by rw [a3]; exact hws)
  rw [a4] at b5
  obtain ⟨hmem2, hnd2, hidx2⟩ := foldl_mapSet_keys s.userId (first.id s.userId) others
    (run s [first.event]).pendingInputs hmem1 hnd1
  rw [← b5] at hmem2 hnd2 hidx2
  -- after the second submission
  obtain ⟨c1, _, _, _, c5⟩ := run_submissions [second]
    (run (run s [first.event]) (others.map Submission.event)) b1
    (by rw [b2, a2]; exact hen) (by rw [b3, a3]; exact hws)
  simp only [List.map_cons, List.map_nil, List.foldl_cons, List.foldl_nil] at c1 c5
  rw [b4, a4, hsame] at c5
  have hkeys3 := mapKeys_mapSet_of_mem _ (first.id s.userId) second.text hmem2
  refine ⟨?_, ?_, ?_, ?_, ?_, ?_⟩
  · rw [c5, hkeys3]
    exact List.count_eq_one_of_mem hnd2 hmem2
  · rw [c5]; exact mapGet_mapSet_self _ _ _
  · intro j hj
    rw [c5]; exact mapGet_mapSet_ne _ _ _ j hj
  · rw [c5, hkeys3, hidx2]
  · intro hnew
    rw [a5, mapSet_of_not_mem _ _ _ hnew]
    simp only [mapKeys, List.map_append, List.map_cons, List.map_nil]
    have hnew' : first.id s.userId ∉ List.map Prod.fst s.pendingInputs := hnew
    rw [List.indexOf_append_of_not_mem hnew']
    simp
  · have hne : (run (run (run s [first.event]) (others.map Submission.event))
        [second.event]).pendingInputs.length ≠ 0 := by
      intro h0
      have := List.length_eq_zero.mp h0
      rw [c5] at this
      have hm := (mem_mapKeys_mapSet
        (run (run s [first.event]) (others.map Submission.event)).pendingInputs
        (first.id s.userId) second.text (first.id s.userId)).mpr (Or.inl rfl)
      rw [this] at hm
      simp [mapKeys] at hm
    simp only [step, sendCombinedInputsToAI, c1, Bool.not_true, Bool.false_or, beq_iff_eq,
      hne, if_false]
    rw [c5, mapValues_mapSet_of_mem _ _ _ hmem2, hidx2]


/-- The witness of C10 on `hostSession`: A submits "x", B submits "y", A submits
"z"; the set holds A first with "z", and the combined string is "z\n\ny". -/
theorem resubmit_last_write_wins_witness :
    (run (run (run hostSession [(Submission.client "A" "Ann" "x" 1).event])
        ([Submission.client "B" "Bob" "y" 2].map Submission.event))
        [(Submission.client "A" "Ann" "z" 3).event]).pendingInputs = [("A", "z"), ("B", "y")] ∧
    (step (run (run (run hostSession [(Submission.client "A" "Ann" "x" 1).event])
        ([Submission.client "B" "Bob" "y" 2].map Submission.event))
        [(Submission.client "A" "Ann" "z" 3).event]) Event.sendToAI).2 =
      [Effect.sendSystemMessage "z\n\ny" "user" true] :=
  ⟨by decide,
   (resubmit_last_write_wins hostSession (Submission.client "A" "Ann" "x" 1)
      (Submission.client "A" "Ann" "z" 3) [Submission.client "B" "Bob" "y" 2]
      (by decide) (by decide) (by decide) (by decide) (by decide)).2.2.2.2.2⟩

/-! ## The Membership Registry -/

theorem find?_id_isSome (users : List User) (id : String) :
    (users.find? (fun u => u.id == id)).isSome = true ↔ id ∈ users.map User.id := by
  induction users with
  | nil => simp
  | cons u rest ih =>
    by_cases h : u.id = id
    · simp [List.find?_cons, h]
    · have h' : ¬ id = u.id := fun e => h e.symm
      simp [List.find?_cons, h, h']

theorem addUser_ids (st : CoopStore) (u : User) :
    (st.addUser u).users.map User.id =
      if u.id ∈ st.users.map User.id then st.users.map User.id
      else st.users.map User.id ++ [u.id] := by
  unfold CoopStore.addUser
  by_cases h : u.id ∈ st.users.map User.id
  · rw [if_pos ((find?_id_isSome _ _).mpr h), if_pos h]
  · rw [if_neg (fun hc => h ((find?_id_isSome _ _).mp hc)), if_neg h]
    simp

theorem removeUser_ids (st : CoopStore) (id : String) :
    (st.removeUser id).users.map User.id = (st.users.map User.id).filter (fun x => x != id) := by
  unfold CoopStore.removeUser
  split
  · simp [CoopStore.log, List.filter_map, Function.comp_def]
  · rename_i hnone
    have hnot : id ∉ st.users.map User.id := by
      intro hmem
      have := (find?_id_isSome st.users id).mpr hmem
      rw [hnone] at this
      simp at this
    symm
    rw [List.filter_eq_self]
    intro x hx
    simp only [bne_iff_ne, ne_eq]
    intro hxe
    exact hnot (hxe ▸ hx)

theorem noLeaveIn_cons_joined (id : String) (u : User) (now : Nat) (rest : List Event) :
    NoLeaveIn id (Event.onmessage (Message.user_joined u) now :: rest) ↔ NoLeaveIn id rest := by
  simp [NoLeaveIn]

theorem noLeaveIn_cons_left (id id' name : String) (now : Nat) (rest : List Event) :
    NoLeaveIn id (Event.onmessage (Message.user_left id' name) now :: rest) ↔
      id ≠ id' ∧ NoLeaveIn id rest := by
  simp only [NoLeaveIn, List.mem_cons, not_or]
  constructor
  · intro h
    refine ⟨?_, fun nm t => (h nm t).2⟩
    intro he
    exact (h name now).1 (by rw [he])
  · rintro ⟨hne, h⟩ nm t
    refine ⟨?_, h nm t⟩
    intro he
    injection he with he1
    injection he1 with he2
    exact hne he2

theorem joinedAndStayed_nil (id : String) : ¬ JoinedAndStayed id [] := by
  rintro ⟨pre, u, now, post, h, _⟩
  simp at h

theorem joinedAndStayed_cons_joined (id : String) (u : User) (now : Nat) (rest : List Event) :
    JoinedAndStayed id (Event.onmessage (Message.user_joined u) now :: rest) ↔
      (u.id = id ∧ NoLeaveIn id rest) ∨ JoinedAndStayed id rest := by
  constructor
  · rintro ⟨pre, u', now', post, h, hid, hno⟩
    cases pre with
    | nil =>
      simp only [List.nil_append, List.cons.injEq] at h
      obtain ⟨h1, h2⟩ := h
      injection h1 with h1 _
      injection h1 with h1
      left
      exact ⟨by rw [h1]; exact hid, by rw [h2]; exact hno⟩
    | cons p pre' =>
      simp only [List.cons_append, List.cons.injEq] at h
      right
      exact ⟨pre', u', now', post, h.2, hid, hno⟩
  · rintro (⟨hid, hno⟩ | ⟨pre, u', now', post, h, hid, hno⟩)
    · exact ⟨[], u, now, rest, rfl, hid, hno⟩
    · exact ⟨_ :: pre, u', now', post, by rw [h]; rfl, hid, hno⟩

theorem joinedAndStayed_cons_left (id id' name : String) (now : Nat) (rest : List Event) :
    JoinedAndStayed id (Event.onmessage (Message.user_left id' name) now :: rest) ↔
      JoinedAndStayed id rest := by
  constructor
  · rintro ⟨pre, u', now', post, h, hid, hno⟩
    cases pre with
    | nil =>
      simp only [List.nil_append, List.cons.injEq] at h
      obtain ⟨h1, _⟩ := h
      injection h1 with h1 _
      cases h1
    | cons p pre' =>
      simp only [List.cons_append, List.cons.injEq] at h
      exact ⟨pre', u', now', post, h.2, hid, hno⟩
  · rintro ⟨pre, u', now', post, h, hid, hno⟩
    exact ⟨_ :: pre, u', now', post, by rw [h]; rfl, hid, hno⟩

/-- Registry after a run of roster events from any registry with distinct ids. -/
theorem run_roster (events : List Event) :
    ∀ (s : State) (st : CoopStore), s.coopStore = some st →
      (∀ e ∈ events, isRosterEvent e = true) → (st.users.map User.id).Nodup →
      ∃ st', (run s events).coopStore = some st' ∧ (st'.users.map User.id).Nodup ∧
        ∀ id, id ∈ st'.users.map User.id ↔
          JoinedAndStayed id events ∨ (id ∈ st.users.map User.id ∧ NoLeaveIn id events) := by
  induction events with
  | nil =>
    intro s st hs _ hn
    refine ⟨st, hs, hn, fun id => ?_⟩
    simp [joinedAndStayed_nil, NoLeaveIn]
  | cons e rest ih =>
    intro s st hs hr hn
    have hrest : ∀ e ∈ rest, isRosterEvent e = true :=
      fun e he => hr e (List.mem_cons_of_mem _ he)
    have he := hr e (List.mem_cons_self _ _)
    cases e with
    | onmessage message now =>
      cases message with
      | user_joined u =>
        have hs1 : (step s (Event.onmessage (Message.user_joined u) now)).1.coopStore =
            some ((st.addUser u).log (u.name ++ " has joined.")) := by
          simp [step, handleMessage, hs]
        have hids : ((st.addUser u).log (u.name ++ " has joined.")).users.map User.id =
            (st.addUser u).users.map User.id := rfl
        have hn1 : (((st.addUser u).log (u.name ++ " has joined.")).users.map User.id).Nodup := by
          rw [hids, addUser_ids]
          split
          · exact hn
          · rename_i hnot
            rw [List.nodup_append]
            refine ⟨hn, by simp, ?_⟩
            intro x hx hx'
            simp only [List.mem_singleton] at hx'
            exact hnot (hx' ▸ hx)
        obtain ⟨st', h1, h2, h3⟩ := ih _ _ hs1 hrest hn1
        refine ⟨st', h1, h2, fun id => ?_⟩
        rw [h3 id, hids, addUser_ids, joinedAndStayed_cons_joined, noLeaveIn_cons_joined]
        split
        · rename_i hin
          constructor
          · rintro (h | h)
            · exact Or.inl (Or.inr h)
            · exact Or.inr h
          · rintro ((⟨hid, hno⟩ | h) | h)
            · exact Or.inr ⟨hid ▸ hin, hno⟩
            · exact Or.inl h
            · exact Or.inr h
        · constructor
          · rintro (h | ⟨hmem, hno⟩)
            · exact Or.inl (Or.inr h)
            · simp only [List.mem_append, List.mem_singleton] at hmem
              rcases hmem with hmem | hmem
              · exact Or.inr ⟨hmem, hno⟩
              · exact Or.inl (Or.inl ⟨hmem.symm, hno⟩)
          · rintro ((⟨hid, hno⟩ | h) | ⟨hmem, hno⟩)
            · exact Or.inr ⟨by simp [hid], hno⟩
            · exact Or.inl h
            · exact Or.inr ⟨by simp [hmem], hno⟩
      | user_left id' name =>
        have hs1 : (step s (Event.onmessage (Message.user_left id' name) now)).1.coopStore =
            some ((st.removeUser id').log (name ++ " has left.")) := by
          simp [step, handleMessage, hs]
        have hids : ((st.removeUser id').log (name ++ " has left.")).users.map User.id =
            (st.removeUser id').users.map User.id := rfl
        have hn1 : (((st.removeUser id').log (name ++ " has left.")).users.map User.id).Nodup := by
          rw [hids, removeUser_ids]
          exact hn.filter _
        obtain ⟨st', h1, h2, h3⟩ := ih _ _ hs1 hrest hn1
        refine ⟨st', h1, h2, fun id => ?_⟩
        rw [h3 id, hids, removeUser_ids, joinedAndStayed_cons_left, noLeaveIn_cons_left]
        simp only [List.mem_filter, bne_iff_ne, ne_eq, decide_eq_true_eq]
        tauto
      | _ => simp [isRosterEvent] at he
    | _ => simp [isRosterEvent] at he

/-- C3: starting from an empty Membership Registry, after any finite sequence of
`user_joined` and `user_left` envelopes handled by `handleMessage`, an id is in
the registry exactly when the sequence holds a `user_joined` for it that no
later `user_left` for the same id follows; and after every prefix of the
sequence the registry holds no id twice. -/
theorem registry_tracks_joins (s : State) (st : CoopStore) (events : List Event)
    (hstore : s.coopStore = some st) (hempty : st.users = [])
    (hroster : ∀ e ∈ events, isRosterEvent e = true) :
    (∀ id, id ∈ registryIds (run s events) ↔ JoinedAndStayed id events) ∧
    (∀ n, (registryIds (run s (events.take n))).Nodup) := by
  constructor
  · intro id
    obtain ⟨st', h1, _, h3⟩ := run_roster events s st hstore hroster (by simp [hempty])
    simp only [registryIds, h1]
    rw [h3 id]
    simp [hempty]
  · intro n
    obtain ⟨st', h1, h2, _⟩ := run_roster (events.take n) s st hstore
      (fun e he => hroster e (List.mem_of_mem_take he)) (by simp [hempty])
    simp only [registryIds, h1]
    exact h2

/-- The statement of C3 for A joining, B joining, A leaving, A joining again and
B leaving: the registry then lists A alone. -/
theorem registry_tracks_joins_witness :
    registryIds (run (init "u")
      [Event.onmessage (Message.user_joined ⟨"A", "Ann"⟩) 1,
       Event.onmessage (Message.user_joined ⟨"B", "Bob"⟩) 2,
       Event.onmessage (Message.user_left "A" "Ann") 3,
       Event.onmessage (Message.user_joined ⟨"A", "Ann"⟩) 4,
       Event.onmessage (Message.user_left "B" "Bob") 5]) = ["A"] ∧
    ((∀ id, id ∈ registryIds (run (init "u")
      [Event.onmessage (Message.user_joined ⟨"A", "Ann"⟩) 1,
       Event.onmessage (Message.user_joined ⟨"B", "Bob"⟩) 2,
       Event.onmessage (Message.user_left "A" "Ann") 3,
       Event.onmessage (Message.user_joined ⟨"A", "Ann"⟩) 4,
       Event.onmessage (Message.user_left "B" "Bob") 5]) ↔
      JoinedAndStayed id
      [Event.onmessage (Message.user_joined ⟨"A", "Ann"⟩) 1,
       Event.onmessage (Message.user_joined ⟨"B", "Bob"⟩) 2,
       Event.onmessage (Message.user_left "A" "Ann") 3,
       Event.onmessage (Message.user_joined ⟨"A", "Ann"⟩) 4,
       Event.onmessage (Message.user_left "B" "Bob") 5]) ∧
    (∀ n, (registryIds (run (init "u")
      ([Event.onmessage (Message.user_joined ⟨"A", "Ann"⟩) 1,
       Event.onmessage (Message.user_joined ⟨"B", "Bob"⟩) 2,
       Event.onmessage (Message.user_left "A" "Ann") 3,
       Event.onmessage (Message.user_joined ⟨"A", "Ann"⟩) 4,
       Event.onmessage (Message.user_left "B" "Bob") 5].take n))).Nodup)) :=
  ⟨by decide, registry_tracks_joins (init "u") CoopStore.initial _ rfl rfl (by decide)⟩

/-! ## The `welcome` envelope -/

theorem coopUi_eq (s : State) (f : CoopStore → CoopStore) :
    coopUi s f = { s with coopStore := s.coopStore.map f } := by
  unfold coopUi
  split
  · rename_i st h; simp [h]
  · rename_i h; cases s; simp_all

theorem foldl_coopUi_addUser (users : List User) :
    ∀ s : State, users.foldl (fun acc u => coopUi acc (fun st => st.addUser u)) s =
      { s with coopStore := s.coopStore.map (fun st => users.foldl CoopStore.addUser st) } := by
  induction users with
  | nil => intro s; cases s; simp
  | cons u rest ih =>
    intro s
    simp only [List.foldl_cons]
    rw [ih, coopUi_eq]
    cases h : s.coopStore <;> simp [h]

theorem foldl_addUser (users : List User) :
    ∀ st : CoopStore, (users.map User.id).Nodup →
      users.foldl CoopStore.addUser st =
        { st with users := st.users ++
            users.filter (fun u => decide (u.id ∉ st.users.map User.id)) } := by
  induction users with
  | nil => intro st _; simp
  | cons u rest ih =>
    intro st hn
    simp only [List.map_cons, List.nodup_cons] at hn
    simp only [List.foldl_cons]
    rw [ih _ hn.2]
    by_cases h : u.id ∈ st.users.map User.id
    · have hadd : st.addUser u = st := by
        unfold CoopStore.addUser
        rw [if_pos ((find?_id_isSome _ _).mpr h)]
      rw [hadd]
      have h' := h
      simp only [List.mem_map, not_exists, not_and] at h'
      obtain ⟨x, hx, hxe⟩ := h'
      have h'' : ¬ ∀ x ∈ st.users, ¬ x.id = u.id := fun hc => hc x hx hxe
      simp [List.filter_cons, h'']
    · have hadd : st.addUser u = { st with users := st.users ++ [u] } := by
        unfold CoopStore.addUser
        rw [if_neg (fun hc => h ((find?_id_isSome _ _).mp hc))]
      rw [hadd]
      have hfilter : rest.filter (fun x => decide (x.id ∉ (st.users ++ [u]).map User.id)) =
          rest.filter (fun x => decide (x.id ∉ st.users.map User.id)) := by
        apply List.filter_congr
        intro x hx
        have hxu : x.id ≠ u.id := by
          intro he
          exact hn.1 (he ▸ List.mem_map_of_mem User.id hx)
        simp [hxu]
      simp only [hfilter]
      have h'' : ∀ x ∈ st.users, ¬ x.id = u.id := by
        intro x hx hxe
        exact h (hxe ▸ List.mem_map_of_mem User.id hx)
      simp [List.filter_cons]
      rw [if_pos h'']

/-- C4 fails as stated: after a reconnect the registry still lists H, A and B
(closing the link keeps it), and the `welcome` that follows adds the payload's
roster to it instead of replacing it. -/
theorem welcome_replaces_counterexample :
    ((handleMessage reconnectedSession
        (Message.welcome "N" false [⟨"N", "Nia"⟩, ⟨"A", "Ann"⟩]) 7).1.coopStore.map
        CoopStore.users) =
      some [⟨"H", "Hana"⟩, ⟨"A", "Ann"⟩, ⟨"B", "Bob"⟩, ⟨"N", "Nia"⟩] ∧
    ((handleMessage reconnectedSession
        (Message.welcome "N" false [⟨"N", "Nia"⟩, ⟨"A", "Ann"⟩]) 7).1.coopStore.map
        CoopStore.users) ≠ some [⟨"N", "Nia"⟩, ⟨"A", "Ann"⟩] := by
  decide

/-- C4 as amended: after `handleMessage` processes a `welcome` whose roster has
distinct ids, the registry lists its prior entries followed by those payload
entries whose id it did not hold yet, in payload order (so it equals the
payload's roster when it was empty before); the module's and the store's host
flag equal the payload's `isHost`; the status is unchanged. -/
theorem welcome_merges_roster (s : State) (st : CoopStore) (id : String) (isHost : Bool)
    (users : List User) (now : Nat)
    (hstore : s.coopStore = some st) (hdistinct : (users.map User.id).Nodup) :
    ∃ st', (handleMessage s (Message.welcome id isHost users) now).1.coopStore = some st' ∧
      st'.users = st.users ++ users.filter (fun u => decide (u.id ∉ st.users.map User.id)) ∧
      (st.users = [] → st'.users = users) ∧
      (handleMessage s (Message.welcome id isHost users) now).1.isHost = isHost ∧
      st'.isHost = isHost ∧
      st'.status = st.status := by
  simp only [handleMessage, foldl_coopUi_addUser, coopUi_coopStore, hstore, Option.map_some']
  refine ⟨_, rfl, ?_⟩
  rw [foldl_addUser users _ hdistinct]
  refine ⟨rfl, ?_, ?_, rfl, rfl⟩
  · intro he
    simp [CoopStore.log, CoopStore.setIsHost, he]
  · simp

/-- The amended C4 at the input of the counterexample. -/
theorem welcome_merges_roster_witness :
    ∃ st', (handleMessage reconnectedSession
        (Message.welcome "N" false [⟨"N", "Nia"⟩, ⟨"A", "Ann"⟩]) 7).1.coopStore = some st' ∧
      st'.users = [⟨"H", "Hana"⟩, ⟨"A", "Ann"⟩, ⟨"B", "Bob"⟩, ⟨"N", "Nia"⟩] ∧
      st'.isHost = false ∧ st'.status = Status.connected := by
  obtain ⟨st', h1, h2, _, _, h5, h6⟩ := welcome_merges_roster reconnectedSession
    { status := Status.connected, isPanelVisible := false,
      users := [⟨"H", "Hana"⟩, ⟨"A", "Ann"⟩, ⟨"B", "Bob"⟩],
      chatLog := ["Connection to server closed.", "Joined as Host."], isHost := true, lastError := none }
    "N" false [⟨"N", "Nia"⟩, ⟨"A", "Ann"⟩] 7 (by decide) (by decide)
  exact ⟨st', h1, by rw [h2]; decide, h5, h6⟩

/-! ## Link close and link error -/

/-- C5 fails as stated: when the link closes while the status is `waiting`, the
registry still lists H, A and B and the store's host flag is still set; when
the link reports an error, the module's host flag is still set too. -/
theorem link_down_clears_counterexample :
    waitingSession.coopStore.map CoopStore.status = some Status.waiting ∧
    (wsOnClose waitingSession).coopStore.map CoopStore.users =
      some [⟨"H", "Hana"⟩, ⟨"A", "Ann"⟩, ⟨"B", "Bob"⟩] ∧
    (wsOnClose waitingSession).coopStore.map CoopStore.isHost = some true ∧
    (wsOnError waitingSession).coopStore.map CoopStore.users =
      some [⟨"H", "Hana"⟩, ⟨"A", "Ann"⟩, ⟨"B", "Bob"⟩] ∧
    (wsOnError waitingSession).isHost = true := by
  decide

/-- C5 as amended: in every state, after `ws.onclose` or `ws.onerror` the session
status is `disconnected` and the Membership Registry lists what it listed
before; `ws.onclose` also clears the module's `isHost` and drops the link. -/
theorem link_down_disconnects (s : State) (st : CoopStore) (hstore : s.coopStore = some st) :
    (∃ st', (wsOnClose s).coopStore = some st' ∧ st'.status = Status.disconnected ∧
      st'.users = st.users) ∧
    (wsOnClose s).isHost = false ∧ (wsOnClose s).ws = none ∧
    (∃ st', (wsOnError s).coopStore = some st' ∧ st'.status = Status.disconnected ∧
      st'.users = st.users) := by
  refine ⟨⟨(st.setStatus Status.disconnected).log "Connection to server closed.", ?_, rfl, rfl⟩,
    ?_, ?_,
    ⟨(st.setStatus Status.disconnected).log "Error: Could not connect to server.", ?_, rfl, rfl⟩⟩
  · simp only [wsOnClose, coopUi_coopStore, hstore, Option.map_some']
  · simp [wsOnClose]
  · simp [wsOnClose]
  · simp only [wsOnError, coopUi_coopStore, hstore, Option.map_some']

/-- Scenario C under the amended C5: the link closes while the status is
`waiting`. -/
theorem link_down_disconnects_witness :
    (wsOnClose waitingSession).coopStore.map CoopStore.status = some Status.disconnected ∧
    (wsOnClose waitingSession).isHost = false := by
  obtain ⟨⟨st', h1, h2, _⟩, h3, _, _⟩ := link_down_disconnects waitingSession
    { status := Status.waiting, isPanelVisible := false,
      users := [⟨"H", "Hana"⟩, ⟨"A", "Ann"⟩, ⟨"B", "Bob"⟩],
      chatLog := ["Joined as Host."], isHost := true, lastError := none } (by decide)
  exact ⟨by rw [h1, Option.map_some', h2], h3⟩

/-! ## The `broadcast_message` envelope -/

/-- C7: from every prior status, after `handleMessage` processes
`broadcast_message` with text `t` the status is `connected`; `addOneMessage` is
called exactly once, with an assistant-role, non-system message of text `t`,
when the local role is client, and not at all on a host; the host flag, the
Pending Input Set and the Membership Registry are unchanged. -/
theorem broadcast_sets_connected (s : State) (st : CoopStore) (t : String) (now : Nat)
    (hstore : s.coopStore = some st) :
    (handleMessage s (Message.broadcast_message t) now).1.coopStore =
      some { st with status := Status.connected } ∧
    (s.isHost = false →
      (handleMessage s (Message.broadcast_message t) now).2 =
        [Effect.addOneMessage "assistant" t now false]) ∧
    (s.isHost = true → (handleMessage s (Message.broadcast_message t) now).2 = []) ∧
    (handleMessage s (Message.broadcast_message t) now).1.isHost = s.isHost ∧
    (handleMessage s (Message.broadcast_message t) now).1.pendingInputs = s.pendingInputs ∧
    registryIds (handleMessage s (Message.broadcast_message t) now).1 = registryIds s := by
  refine ⟨?_, ?_, ?_, ?_, ?_, ?_⟩
  · simp [handleMessage, hstore, CoopStore.setStatus]
  · intro h; simp [handleMessage, h]
  · intro h; simp [handleMessage, h]
  · simp [handleMessage]
  · simp [handleMessage]
  · simp [handleMessage, registryIds, hstore, CoopStore.setStatus]

/-- Scenario B: a host in `generating` receives `broadcast_message` with text
"Hi there"; the status becomes `connected` and nothing is rendered. -/
theorem broadcast_sets_connected_witness :
    generatingSession.coopStore.map CoopStore.status = some Status.generating ∧
    (handleMessage generatingSession (Message.broadcast_message "Hi there") 9).1.coopStore.map
      CoopStore.status = some Status.connected ∧
    (handleMessage generatingSession (Message.broadcast_message "Hi there") 9).2 = [] := by
  have h := broadcast_sets_connected generatingSession
    (generatingSession.coopStore.getD CoopStore.initial) "Hi there" 9 (by decide)
  exact ⟨by decide, by rw [h.1]; rfl, h.2.2.1 (by decide)⟩

/-! ## Host-only actions on a client -/

/-- C8: in every state whose host flag is false, no event changes the Pending
Input Set: not an inbound envelope (`client_input` included), not the
send-to-ai trigger, not a timer callback, not a local message through
`onBeforeMessageSend`, nor any other event of the loop.  The host-only paths
return at once without calling a collaborator (so nothing can throw): the
send-to-ai trigger and a `client_input` envelope return the state they were
given, and a timer callback leaves the store, hence the status, as it was. -/
theorem client_never_touches_pending (s : State) (e : Event) (hclient : s.isHost = false) :
    (step s e).1.pendingInputs = s.pendingInputs ∧
    step s Event.sendToAI = (s, []) ∧
    (step s Event.timer).1.coopStore = s.coopStore ∧
    (step s Event.timer).2 = [] ∧
    (∀ id name text now,
      step s (Event.onmessage (Message.client_input id name text) now) = (s, [])) := by
  refine ⟨?_, ?_, ?_, ?_, ?_⟩
  · cases e with
    | onmessage message now =>
      cases message <;> simp [step, handleMessage, hclient, foldl_coopUi_addUser]
    | coopConnect =>
      simp only [step, connect]
      split
      · rfl
      · split <;> simp
    | coopDisconnect =>
      simp only [step, disconnect]
      split <;> rfl
    | onopen => simp [step, wsOnOpen]
    | onclose => simp [step, wsOnClose]
    | onerror => simp [step, wsOnError]
    | sendToAI => simp [step, sendCombinedInputsToAI, hclient]
    | timer =>
      simp only [step, timerFire]
      split
      · rfl
      · simp [sendCombinedInputsToAI, hclient]
    | beforeSend data =>
      simp only [step, onBeforeMessageSend]
      split
      · rfl
      · simp [hclient]
    | submitInput text =>
      simp only [step, onSubmitInput]
      split <;> simp
  · simp [step, sendCombinedInputsToAI, hclient]
  · simp only [step, timerFire]
    split
    · rfl
    · simp [sendCombinedInputsToAI, hclient]
  · simp only [step, timerFire]
    split
    · rfl
    · simp [sendCombinedInputsToAI, hclient]
  · intro id name text now
    simp [step, handleMessage, hclient]

/-- A client that still holds an entry from an earlier spell as host: the entry
survives a `client_input`, the send-to-ai trigger and a timer callback. -/
theorem client_never_touches_pending_witness :
    (run hostSession [Event.beforeSend ⟨"mine", false⟩, Event.onclose]).isHost = false ∧
    (step (run hostSession [Event.beforeSend ⟨"mine", false⟩, Event.onclose])
      Event.timer).1.pendingInputs = [("H", "mine")] ∧
    step (run hostSession [Event.beforeSend ⟨"mine", false⟩, Event.onclose]) Event.sendToAI =
      (run hostSession [Event.beforeSend ⟨"mine", false⟩, Event.onclose], []) :=
  have h := client_never_touches_pending
    (run hostSession [Event.beforeSend ⟨"mine", false⟩, Event.onclose]) Event.timer (by decide)
  ⟨by decide, h.1.trans (by decide), h.2.1⟩

/-! ## Pending keys and the registry -/

theorem mem_foldl_addUser (users : List User) :
    ∀ (st : CoopStore) (x : String), x ∈ st.users.map User.id →
      x ∈ (users.foldl CoopStore.addUser st).users.map User.id := by
  induction users with
  | nil => intro st x hx; exact hx
  | cons u rest ih =>
    intro st x hx
    simp only [List.foldl_cons]
    apply ih
    rw [addUser_ids]
    split
    · exact hx
    · exact List.mem_append_left _ hx

/-- Only `user_left` takes an id out of the registry, and only the id it names. -/
theorem step_registry_mono (s : State) (e : Event) (x : String)
    (hx : x ∈ registryIds s)
    (hne : ∀ id name now, e = Event.onmessage (Message.user_left id name) now → x ≠ id) :
    x ∈ registryIds (step s e).1 := by
  unfold registryIds at hx ⊢
  cases hs : s.coopStore with
  | none => simp [hs] at hx
  | some st =>
    simp only [hs] at hx
    cases e with
    | onmessage message now =>
      cases message with
      | welcome id isHost users =>
        simp only [step, handleMessage, foldl_coopUi_addUser, coopUi_coopStore, hs,
          Option.map_some']
        exact mem_foldl_addUser users _ x hx
      | user_joined data =>
        simp only [step, handleMessage, coopUi_coopStore, hs, Option.map_some']
        have : ((st.addUser data).log (data.name ++ " has joined.")).users.map User.id =
            (st.addUser data).users.map User.id := rfl
        rw [this, addUser_ids]
        split
        · exact hx
        · exact List.mem_append_left _ hx
      | user_left id name =>
        simp only [step, handleMessage, coopUi_coopStore, hs, Option.map_some']
        have : ((st.removeUser id).log (name ++ " has left.")).users.map User.id =
            (st.removeUser id).users.map User.id := rfl
        rw [this, removeUser_ids]
        simp only [List.mem_filter, bne_iff_ne, ne_eq]
        exact ⟨hx, hne id name now rfl⟩
      | host_input_request =>
        simp only [step, handleMessage, coopUi_coopStore, hs, Option.map_some']
        exact hx
      | client_input id name text =>
        simp only [step, handleMessage]
        split_ifs
        · simp only [coopUi_coopStore, hs, Option.map_some']
          exact hx
        · simp only [hs]; exact hx
      | broadcast_message text =>
        simp only [step, handleMessage, coopUi_coopStore, hs, Option.map_some']
        exact hx
      | other type => simp only [step, handleMessage, hs]; exact hx
    | coopConnect =>
      simp only [step, connect]
      split_ifs
      · simp only [hs]; exact hx
      · simp only [coopUi_coopStore, hs, Option.map_some']; exact hx
      · simp only [coopUi_coopStore, hs, Option.map_some']; exact hx
    | coopDisconnect =>
      simp only [step, disconnect]
      cases hw : s.ws with
      | none => simp only [hs]; exact hx
      | some r => cases r <;> (simp only [hs]; exact hx)
    | onopen =>
      simp only [step, wsOnOpen, coopUi_coopStore, hs, Option.map_some']; exact hx
    | onclose =>
      simp only [step, wsOnClose, coopUi_coopStore, hs, Option.map_some']; exact hx
    | onerror =>
      simp only [step, wsOnError, coopUi_coopStore, hs, Option.map_some']; exact hx
    | sendToAI =>
      simp only [step, sendCombinedInputsToAI]
      split_ifs
      · simp only [hs]; exact hx
      · simp only [coopUi_coopStore, hs, Option.map_some']; exact hx
    | timer =>
      simp only [step, timerFire, sendCombinedInputsToAI]
      split_ifs
      · simp only [hs]; exact hx
      · simp only [hs]; exact hx
      · simp only [coopUi_coopStore, hs, Option.map_some']; exact hx
    | beforeSend data =>
      simp only [step, onBeforeMessageSend]
      split_ifs
      · simp only [hs]; exact hx
      · simp only [coopUi_coopStore, hs, Option.map_some']; exact hx
      · simp only [coopUi_coopStore, hs, Option.map_some']; exact hx
    | submitInput text =>
      simp only [step, onSubmitInput]
      split_ifs
      · simp only [coopUi_coopStore, hs, Option.map_some']; exact hx
      · simp only [hs]; exact hx

/-- A key of the Pending Input Set after an event was there before, or is the
id of a submission the host just stored. -/
theorem step_pending_keys (s : State) (e : Event) (k : String)
    (hk : k ∈ mapKeys (step s e).1.pendingInputs) :
    k ∈ mapKeys s.pendingInputs ∨
    (∃ id name text now, e = Event.onmessage (Message.client_input id name text) now ∧
      s.isHost = true ∧ k = id) ∨
    (∃ data, e = Event.beforeSend data ∧ s.isHost = true ∧ s.settings.enabled = true ∧
      s.ws = some ReadyState.OPEN ∧ k = s.userId) := by
  cases e with
  | onmessage message now =>
    cases message with
    | client_input id name text =>
      by_cases hh : s.isHost = true
      · simp only [step, handleMessage, hh, if_true, coopUi_pendingInputs] at hk
        rcases (mem_mapKeys_mapSet _ _ _ _).mp hk with h | h
        · exact Or.inr (Or.inl ⟨id, name, text, now, rfl, hh, h⟩)
        · exact Or.inl h
      · simp only [step, handleMessage, hh] at hk
        exact Or.inl hk
    | welcome id isHost users =>
      left
      simpa [step, handleMessage, foldl_coopUi_addUser] using hk
    | user_joined data => left; simpa [step, handleMessage] using hk
    | user_left id name => left; simpa [step, handleMessage] using hk
    | host_input_request => left; simpa [step, handleMessage] using hk
    | broadcast_message text => left; simpa [step, handleMessage] using hk
    | other type => left; simpa [step, handleMessage] using hk
  | coopConnect =>
    left
    simp only [step, connect] at hk
    split at hk
    · exact hk
    · split at hk <;> simpa using hk
  | coopDisconnect =>
    left
    simp only [step, disconnect] at hk
    split at hk <;> exact hk
  | onopen => left; simpa [step, wsOnOpen] using hk
  | onclose => left; simpa [step, wsOnClose] using hk
  | onerror => left; simpa [step, wsOnError] using hk
  | sendToAI =>
    left
    simp only [step, sendCombinedInputsToAI] at hk
    split at hk
    · exact hk
    · simp [mapKeys] at hk
  | timer =>
    left
    simp only [step, timerFire] at hk
    split at hk
    · exact hk
    · simp only [sendCombinedInputsToAI] at hk
      split at hk
      · exact hk
      · simp [mapKeys] at hk
  | beforeSend data =>
    simp only [step, onBeforeMessageSend] at hk
    split at hk
    · exact Or.inl hk
    · rename_i hcond
      have hen : s.settings.enabled = true := by
        by_contra hc; apply hcond; simp [hc]
      have hws : s.ws = some ReadyState.OPEN := by
        by_contra hc; apply hcond; simp [hc]
      by_cases hh : s.isHost = true
      · simp only [hh, if_true, coopUi_pendingInputs] at hk
        rcases (mem_mapKeys_mapSet _ _ _ _).mp hk with h | h
        · exact Or.inr (Or.inr ⟨data, rfl, hh, hen, hws, h⟩)
        · exact Or.inl h
      · have hf : s.isHost = false := by simpa using hh
        simp only [hf, Bool.false_eq_true, if_false, coopUi_pendingInputs] at hk
        exact Or.inl hk
  | submitInput text =>
    left
    simp only [step, onSubmitInput] at hk
    split at hk
    · simpa using hk
    · exact hk

/-- One admissible event keeps the pending keys inside the registry. -/
theorem step_keeps_pendingWithinRegistry (s : State) (e : Event)
    (hinv : PendingWithinRegistry s) (hadm : Admissible s e) :
    PendingWithinRegistry (step s e).1 := by
  intro k hk
  rcases step_pending_keys s e k hk with h | ⟨id, name, text, now, he, hh, hkid⟩ |
      ⟨data, he, hh, hen, hws, hkid⟩
  · apply step_registry_mono s e k (hinv k h)
    intro id name now he hkid
    subst he
    exact hadm (hkid ▸ h)
  · subst he
    apply step_registry_mono _ _ k
    · rw [hkid]; exact hadm hh
    · intro id' name' now' he'; cases he'
  · subst he
    apply step_registry_mono _ _ k
    · rw [hkid]; exact hadm hh hen hws
    · intro id' name' now' he'; cases he'

theorem run_keeps_pendingWithinRegistry (events : List Event) :
    ∀ s : State, PendingWithinRegistry s → AdmissibleRun s events →
      PendingWithinRegistry (run s events) := by
  induction events with
  | nil => intro s hinv _; exact hinv
  | cons e rest ih =>
    intro s hinv hadm
    exact ih _ (step_keeps_pendingWithinRegistry s e hinv hadm.1) hadm.2

/-- C9 fails as stated.  From the initial state: a host is welcomed with the
roster H, A, B; A submits "hello"; A leaves.  The Pending Input Set then still
holds A's entry while the registry lists H and B only.  Likewise an input from
Z, who was never registered, is stored. -/
theorem pending_within_registry_counterexample :
    ¬ PendingWithinRegistry (run (init "user_k3x9q2a")
      [Event.coopConnect, Event.onopen,
       Event.onmessage (Message.welcome "H" true [⟨"H", "Hana"⟩, ⟨"A", "Ann"⟩, ⟨"B", "Bob"⟩]) 0,
       Event.onmessage (Message.client_input "A" "Ann" "hello") 1,
       Event.onmessage (Message.user_left "A" "Ann") 2]) ∧
    ¬ PendingWithinRegistry (run (init "user_k3x9q2a")
      [Event.coopConnect, Event.onopen,
       Event.onmessage (Message.welcome "H" true [⟨"H", "Hana"⟩, ⟨"A", "Ann"⟩, ⟨"B", "Bob"⟩]) 0,
       Event.onmessage (Message.client_input "Z" "Zed" "hi") 1]) := by
  unfold PendingWithinRegistry
  decide

/-- C9 as amended: in every state reached from the initial state by a sequence
of events in which each submission the host stores (a `client_input`, or the
host's own message) comes from an id registered at that moment, and each
`user_left` names an id without a pending entry at that moment, the keys of the
Pending Input Set are ids listed in the Membership Registry. -/
theorem pending_within_registry (userId : String) (events : List Event)
    (hadm : AdmissibleRun (init userId) events) :
    PendingWithinRegistry (run (init userId) events) :=
  run_keeps_pendingWithinRegistry events (init userId)
    (by intro k hk; simp [init, mapKeys] at hk) hadm

/-- The amended C9 on a round in which H and A submit, the inputs are combined,
and A leaves afterwards. -/
theorem pending_within_registry_witness :
    PendingWithinRegistry (run (init "user_k3x9q2a")
      [Event.coopConnect, Event.onopen,
       Event.onmessage (Message.welcome "H" true [⟨"H", "Hana"⟩, ⟨"A", "Ann"⟩, ⟨"B", "Bob"⟩]) 0,
       Event.beforeSend ⟨"mine", false⟩,
       Event.onmessage (Message.client_input "A" "Ann" "hello") 1,
       Event.sendToAI,
       Event.onmessage (Message.user_left "A" "Ann") 2,
       Event.timer]) :=
  pending_within_registry "user_k3x9q2a" _ (by
    simp only [AdmissibleRun, Admissible]
    decide)

/-! ## The quiescence timer -/

/-- C6 fails as stated.  Two submissions by the host within one round leave two
callbacks scheduled.  After a submission and a manual combine the set is
drained while the callback is still scheduled; when A's input for the next
round has arrived and that callback fires, it combines A's input. -/
theorem timer_once_per_round_counterexample :
    (run hostSession [Event.beforeSend ⟨"one", false⟩, Event.beforeSend ⟨"two", false⟩]).timers
      = 2 ∧
    (run hostSession [Event.beforeSend ⟨"mine", false⟩, Event.sendToAI]).pendingInputs = [] ∧
    (run hostSession [Event.beforeSend ⟨"mine", false⟩, Event.sendToAI]).timers = 1 ∧
    (step (run hostSession
        [Event.beforeSend ⟨"mine", false⟩, Event.sendToAI,
         Event.onmessage (Message.client_input "A" "Ann" "late") 6]) Event.timer).2 =
      [Effect.sendSystemMessage "late" "user" true] := by
  decide

/-- C6 as amended: on a host with the extension active, every own submission
schedules one more timer callback, with no limit per round; a manual combine
drains the Pending Input Set and leaves the scheduled callbacks in place; a
scheduled callback that fires leaves the schedule and acts as
`sendCombinedInputsToAI` on the state of that moment, so it triggers nothing
when the set is empty, as it is right after a manual combine, and otherwise
combines whatever is pending then. -/
theorem timer_fires_as_combine (s : State) (data : SendData)
    (hhost : s.isHost = true) (hen : s.settings.enabled = true)
    (hws : s.ws = some ReadyState.OPEN) :
    (step s (Event.beforeSend data)).1.timers = s.timers + 1 ∧
    (step s Event.sendToAI).1.timers = s.timers ∧
    (step s Event.sendToAI).1.pendingInputs = [] ∧
    (0 < s.timers →
      step s Event.timer = sendCombinedInputsToAI { s with timers := s.timers - 1 } ∧
      (step s Event.timer).1.timers = s.timers - 1 ∧
      (step s Event.timer).1.pendingInputs = [] ∧
      (step s Event.timer).2 = (step s Event.sendToAI).2) ∧
    (s.pendingInputs = [] → (step s Event.timer).2 = []) ∧
    (step (step s Event.sendToAI).1 Event.timer).2 = [] := by
  have hcombine : ∀ t : State, (sendCombinedInputsToAI t).1.timers = t.timers ∧
      (t.isHost = true → (sendCombinedInputsToAI t).1.pendingInputs = []) ∧
      (t.pendingInputs = [] → (sendCombinedInputsToAI t).2 = []) := by
    intro t
    simp only [sendCombinedInputsToAI]
    split_ifs with hc
    · refine ⟨rfl, ?_, fun _ => rfl⟩
      intro ht
      simp only [ht, Bool.not_true, Bool.false_or, beq_iff_eq] at hc
      exact List.length_eq_zero.mp hc
    · refine ⟨by simp, fun _ => by simp, ?_⟩
      intro he
      simp [he] at hc
  have htimer : ∀ t : State, t.pendingInputs = [] → (step t Event.timer).2 = [] := by
    intro t ht
    simp only [step, timerFire]
    split_ifs
    · rfl
    · exact (hcombine _).2.2 ht
  refine ⟨?_, (hcombine s).1, (hcombine s).2.1 hhost, ?_, htimer s, ?_⟩
  · simp [step, onBeforeMessageSend, hhost, hen, hws]
  · intro hpos
    have hne : s.timers ≠ 0 := Nat.pos_iff_ne_zero.mp hpos
    have hstep : step s Event.timer =
        sendCombinedInputsToAI { s with timers := s.timers - 1 } := by
      simp [step, timerFire, hne]
    refine ⟨hstep, ?_, ?_, ?_⟩
    · rw [hstep]; exact (hcombine _).1
    · rw [hstep]; exact (hcombine _).2.1 hhost
    · rw [hstep]
      simp only [step, sendCombinedInputsToAI]
      split_ifs <;> rfl
  · exact htimer _ ((hcombine s).2.1 hhost)

/-- The amended C6 on `hostSession` after one own submission: the next one
schedules a second callback, and the callback takes the place of the manual
combine. -/
theorem timer_fires_as_combine_witness :
    (step (run hostSession [Event.beforeSend ⟨"one", false⟩])
      (Event.beforeSend ⟨"two", false⟩)).1.timers = 2 ∧
    (step (run hostSession [Event.beforeSend ⟨"one", false⟩]) Event.timer).2 =
      [Effect.sendSystemMessage "one" "user" true] :=
  have h := timer_fires_as_combine (run hostSession [Event.beforeSend ⟨"one", false⟩])
    ⟨"two", false⟩ (by decide) (by decide) (by decide)
  ⟨h.1, (h.2.2.2.1 (by decide)).2.2.2.trans (by decide)⟩

end Coop
